import Mathlib

/-!
Verification of the dojo world state-reconstruction and migration engine.

The development shallowly embeds three Rust source files:
* `crates/dojo/world/src/remote/events_to_remote.rs` (event replay into a
  remote world state), in namespace `Dojo.Remote`;
* `crates/sozo/ops/src/migrate/mod.rs` (the four-phase migration planner),
  in namespace `Dojo.Migrate`;
* `crates/katana/executor/src/implementation/blockifier/mod.rs` (the batch
  transaction executor), in namespace `Dojo.Executor`.

Machine field elements (`Felt`) are modelled as `Nat`: the code under study
treats them as opaque stable keys and never performs field arithmetic on
them.  Fallible Rust code returns `Except`; a Rust `unwrap`/`expect` panic is
modelled as a distinguished error constructor documented as a process abort.
-/

set_option maxRecDepth 8000

namespace Dojo

/-- Field elements are opaque fixed-width identifiers in the code under
study; we model them as natural numbers. -/
abbrev Felt := Nat

/-- Lookup in an association list (models `HashMap::get`). -/
def lookupA {α β : Type} [DecidableEq α] : List (α × β) → α → Option β
  | [], _ => none
  | (k, v) :: rest, k' => if k' = k then some v else lookupA rest k'

/-- Insert-or-replace in an association list (models `HashMap::insert`). -/
def insertA {α β : Type} [DecidableEq α] : List (α × β) → α → β → List (α × β)
  | [], k, v => [(k, v)]
  | (k0, v0) :: rest, k, v =>
      if k = k0 then (k, v) :: rest else (k0, v0) :: insertA rest k v

/-- Update the value at a key when present (models `HashMap::get_mut` with
an in-place mutation). -/
def updateA {α β : Type} [DecidableEq α] : List (α × β) → α → (β → β) → List (α × β)
  | [], _, _ => []
  | (k0, v0) :: rest, k, f =>
      if k = k0 then (k0, f v0) :: rest else (k0, v0) :: updateA rest k f

/-- Idempotent set insertion on a duplicate-free list (models
`HashSet::insert`). -/
def setInsert (l : List Felt) (a : Felt) : List Felt :=
  if a ∈ l then l else l ++ [a]

/-- Idempotent set removal (models `HashSet::remove`). -/
def setRemove (l : List Felt) (a : Felt) : List Felt :=
  l.filter (fun x => x ≠ a)

namespace Remote

/-- Modelled from the spec: the deterministic selector derivation from
human-readable names is an external pure function (`dojo_types::naming`),
not part of the supplied sources; the core treats selectors as opaque
stable keys.  We use a small deterministic string hash; the concrete names
appearing in this development hash to pairwise distinct selectors, and no
theorem below relies on injectivity beyond that. -/
def encodeStr (s : String) : Nat :=
  s.data.foldl (fun a c => a + c.toNat) (31 * s.length)

/-- Modelled from the spec: selector of a namespace, derived from its name
(`naming::compute_bytearray_hash`). -/
def computeBytearrayHash (s : String) : Felt :=
  2 * encodeStr s

/-- Modelled from the spec: selector of a namespaced resource, derived from
the namespace and resource names (`naming::compute_selector_from_names`);
the dash-joined tag keeps name pairs apart. -/
def computeSelectorFromNames (ns name : String) : Felt :=
  2 * encodeStr (ns ++ "-" ++ name) + 1

/-- Decoded management events of the world contract
(`abigen::world::Event`), with the fields the replay code reads. -/
inductive WorldEvent : Type
  | worldSpawned (classHash : Felt)
  | worldUpgraded (classHash : Felt)
  | namespaceRegistered (ns : String)
  | modelRegistered (ns name : String) (classHash address : Felt)
  | eventRegistered (ns name : String) (classHash address : Felt)
  | contractRegistered (ns name : String) (classHash address : Felt)
  | modelUpgraded (selector classHash : Felt)
  | eventUpgraded (selector classHash : Felt)
  | contractUpgraded (selector classHash : Felt)
  | contractInitialized (selector : Felt)
  | writerUpdated (resource contract : Felt) (value : Bool)
  | ownerUpdated (resource contract : Felt) (value : Bool)
  | otherEvent
deriving DecidableEq

/-- Common data of a registered model, event or contract resource
(`CommonResourceRemoteInfo`): its class-hash upgrade history (oldest
first), name, address, and owner/writer permission sets. -/
structure CommonResourceRemoteInfo where
  classHashes : List Felt
  name : String
  address : Felt
  owners : List Felt
  writers : List Felt
deriving DecidableEq

/-- Constructor used at registration: a single-element class-hash history
and empty permission sets (`CommonResourceRemoteInfo::new`). -/
def CommonResourceRemoteInfo.new (classHash : Felt) (name : String) (address : Felt) :
    CommonResourceRemoteInfo :=
  { classHashes := [classHash], name := name, address := address, owners := [], writers := [] }

/-- A registered namespace (`NamespaceRemote`). -/
structure NamespaceRemote where
  name : String
  owners : List Felt
  writers : List Felt
deriving DecidableEq

/-- Constructor with empty permission sets (`NamespaceRemote::new`). -/
def NamespaceRemote.new (name : String) : NamespaceRemote :=
  { name := name, owners := [], writers := [] }

/-- A registered contract (`ContractRemote`). -/
structure ContractRemote where
  common : CommonResourceRemoteInfo
  initialized : Bool
deriving DecidableEq

/-- A registered model (`ModelRemote`). -/
structure ModelRemote where
  common : CommonResourceRemoteInfo
deriving DecidableEq

/-- A registered event type (`EventRemote`). -/
structure EventRemote where
  common : CommonResourceRemoteInfo
deriving DecidableEq

/-- Tagged union of remote resources (`ResourceRemote`). -/
inductive ResourceRemote : Type
  | Namespace (n : NamespaceRemote)
  | Contract (c : ContractRemote)
  | Model (m : ModelRemote)
  | Event (e : EventRemote)
deriving DecidableEq

/-- Name of a resource (`ResourceRemote::name`). -/
def ResourceRemote.nameOf : ResourceRemote → String
  | .Namespace n => n.name
  | .Contract c => c.common.name
  | .Model m => m.common.name
  | .Event e => e.common.name

/-- Modelled from the spec: `ResourceRemote::push_class_hash` appends the
class hash to the resource's upgrade history; a namespace has no upgrade
concept and is left unchanged. -/
def ResourceRemote.pushClassHash : ResourceRemote → Felt → ResourceRemote
  | .Namespace n, _ => .Namespace n
  | .Contract c, h => .Contract { c with common := { c.common with classHashes := c.common.classHashes ++ [h] } }
  | .Model m, h => .Model { m with common := { m.common with classHashes := m.common.classHashes ++ [h] } }
  | .Event e, h => .Event { e with common := { e.common with classHashes := e.common.classHashes ++ [h] } }

/-- Class-hash upgrade history of a resource (empty for a namespace). -/
def ResourceRemote.classHashHistory : ResourceRemote → List Felt
  | .Namespace _ => []
  | .Contract c => c.common.classHashes
  | .Model m => m.common.classHashes
  | .Event e => e.common.classHashes

/-- Writer permission set of a resource. -/
def ResourceRemote.writersOf : ResourceRemote → List Felt
  | .Namespace n => n.writers
  | .Contract c => c.common.writers
  | .Model m => m.common.writers
  | .Event e => e.common.writers

/-- Owner permission set of a resource. -/
def ResourceRemote.ownersOf : ResourceRemote → List Felt
  | .Namespace n => n.owners
  | .Contract c => c.common.owners
  | .Model m => m.common.owners
  | .Event e => e.common.owners

/-- Whether the resource is a namespace. -/
def ResourceRemote.isNamespace : ResourceRemote → Bool
  | .Namespace _ => true
  | _ => false

/-- Modelled from the spec: `update_writer` (trait `PermissionsUpdateable`)
inserts the address into the writer set when `value` is true (idempotent)
and removes it otherwise (idempotent). -/
def ResourceRemote.updateWriter (r : ResourceRemote) (address : Felt) (value : Bool) :
    ResourceRemote :=
  let upd := fun l => if value then setInsert l address else setRemove l address
  match r with
  | .Namespace n => .Namespace { n with writers := upd n.writers }
  | .Contract c => .Contract { c with common := { c.common with writers := upd c.common.writers } }
  | .Model m => .Model { m with common := { m.common with writers := upd m.common.writers } }
  | .Event e => .Event { e with common := { e.common with writers := upd e.common.writers } }

/-- Modelled from the spec: `update_owner`, symmetric to `update_writer`
on the owner set. -/
def ResourceRemote.updateOwner (r : ResourceRemote) (address : Felt) (value : Bool) :
    ResourceRemote :=
  let upd := fun l => if value then setInsert l address else setRemove l address
  match r with
  | .Namespace n => .Namespace { n with owners := upd n.owners }
  | .Contract c => .Contract { c with common := { c.common with owners := upd c.common.owners } }
  | .Model m => .Model { m with common := { m.common with owners := upd m.common.owners } }
  | .Event e => .Event { e with common := { e.common with owners := upd e.common.owners } }

/-- The rebuilt remote world state (`WorldRemote`): world class-hash
history, registered namespace selectors, the resource registry keyed by
selector, and the per-namespace indexes of model/event/contract
selectors. -/
structure WorldRemote where
  classHashes : List Felt
  namespaces : List Felt
  resources : List (Felt × ResourceRemote)
  models : List (String × List Felt)
  events : List (String × List Felt)
  contracts : List (String × List Felt)
deriving DecidableEq

/-- Empty world state (`WorldRemote::default`). -/
def WorldRemote.default : WorldRemote :=
  { classHashes := [], namespaces := [], resources := [], models := [], events := [], contracts := [] }

/-- Insert a selector into a per-namespace index set. -/
def indexInsert (m : List (String × List Felt)) (ns : String) (sel : Felt) :
    List (String × List Felt) :=
  match lookupA m ns with
  | some l => insertA m ns (setInsert l sel)
  | none => insertA m ns [sel]

/-- Modelled from the spec: `WorldRemote::add_resource` computes the
resource's selector (namespace selector for a namespace, namespace+name
selector otherwise), records it in the registry, registers namespace
selectors in `namespaces`, and indexes model/event/contract selectors
under their owning namespace; the behaviour is corroborated by the unit
tests in `events_to_remote.rs`. -/
def WorldRemote.addResource (w : WorldRemote) (ns : String) (r : ResourceRemote) :
    WorldRemote :=
  match r with
  | .Namespace n =>
      let sel := computeBytearrayHash n.name
      { w with namespaces := setInsert w.namespaces sel,
               resources := insertA w.resources sel (.Namespace n) }
  | .Model m =>
      let sel := computeSelectorFromNames ns m.common.name
      { w with resources := insertA w.resources sel (.Model m),
               models := indexInsert w.models ns sel }
  | .Event e =>
      let sel := computeSelectorFromNames ns e.common.name
      { w with resources := insertA w.resources sel (.Event e),
               events := indexInsert w.events ns sel }
  | .Contract c =>
      let sel := computeSelectorFromNames ns c.common.name
      { w with resources := insertA w.resources sel (.Contract c),
               contracts := indexInsert w.contracts ns sel }

/-- Errors of the replay reducer.  `panicMissingResource` models the Rust
`Option::unwrap` panic on a selector absent from the registry: an
unrecoverable process abort, not a typed error value returned to the
caller.  `notAContract` models the typed `anyhow` error produced by
`as_contract_mut` when an init event targets a non-contract resource. -/
inductive ReplayError : Type
  | panicMissingResource (selector : Felt)
  | notAContract (selector : Felt)
deriving DecidableEq

/-- Whether the replay outcome models a Rust panic (process abort) rather
than a typed error surfaced through a `Result`. -/
def ReplayError.isPanic : ReplayError → Bool
  | .panicMissingResource _ => true
  | .notAContract _ => false

/-- Shallow embedding of `WorldRemote::match_event`: fold one decoded
management event into the world state.  Selector lookups mirror the
source's `self.resources.get_mut(&sel).unwrap()`: a missing selector is
the `panicMissingResource` abort. -/
def WorldRemote.matchEvent (w : WorldRemote) (event : WorldEvent) :
    Except ReplayError WorldRemote :=
  match event with
  | .worldSpawned ch => .ok { w with classHashes := w.classHashes ++ [ch] }
  | .worldUpgraded ch => .ok { w with classHashes := w.classHashes ++ [ch] }
  | .namespaceRegistered ns =>
      .ok (w.addResource ns (.Namespace (NamespaceRemote.new ns)))
  | .modelRegistered ns name ch addr =>
      .ok (w.addResource ns (.Model { common := CommonResourceRemoteInfo.new ch name addr }))
  | .eventRegistered ns name ch addr =>
      .ok (w.addResource ns (.Event { common := CommonResourceRemoteInfo.new ch name addr }))
  | .contractRegistered ns name ch addr =>
      .ok (w.addResource ns
        (.Contract { common := CommonResourceRemoteInfo.new ch name addr, initialized := false }))
  | .modelUpgraded sel ch =>
      match lookupA w.resources sel with
      | none => .error (.panicMissingResource sel)
      | some _ => .ok { w with resources := updateA w.resources sel (fun r => r.pushClassHash ch) }
  | .eventUpgraded sel ch =>
      match lookupA w.resources sel with
      | none => .error (.panicMissingResource sel)
      | some _ => .ok { w with resources := updateA w.resources sel (fun r => r.pushClassHash ch) }
  | .contractUpgraded sel ch =>
      match lookupA w.resources sel with
      | none => .error (.panicMissingResource sel)
      | some _ => .ok { w with resources := updateA w.resources sel (fun r => r.pushClassHash ch) }
  | .contractInitialized sel =>
      match lookupA w.resources sel with
      | none => .error (.panicMissingResource sel)
      | some (.Contract c) =>
          .ok { w with resources := insertA w.resources sel (.Contract { c with initialized := true }) }
      | some _ => .error (.notAContract sel)
  | .writerUpdated res addr value =>
      match lookupA w.resources res with
      | none => .error (.panicMissingResource res)
      | some _ => .ok { w with resources := updateA w.resources res (fun r => r.updateWriter addr value) }
  | .ownerUpdated res addr value =>
      match lookupA w.resources res with
      | none => .error (.panicMissingResource res)
      | some _ => .ok { w with resources := updateA w.resources res (fun r => r.updateOwner addr value) }
  | .otherEvent => .ok w

/-- Fold a fetched event list into the state, in log order.  A `none`
entry models an event that failed to decode (`world::Event::try_from`
error): it is logged and skipped.  A replay error propagates (the `?` in
the source loop). -/
def foldEventsL : List (Option WorldEvent) → WorldRemote → Except ReplayError WorldRemote
  | [], w => .ok w
  | none :: rest, w => foldEventsL rest w
  | some e :: rest, w =>
      match w.matchEvent e with
      | .error err => .error err
      | .ok w' => foldEventsL rest w'

/-- Fold a fetched event list into the state, in log order (argument order
as in the source: state first). -/
def foldEvents (w : WorldRemote) (events : List (Option WorldEvent)) :
    Except ReplayError WorldRemote :=
  foldEventsL events w

/-- One page of the paginated event log, as returned by the provider. -/
structure EventPage where
  events : List (Option WorldEvent)
  continuationToken : Option Nat

/-- Shallow embedding of the source's fetch loop:
`while continuation_token.is_some() { page = get_events(token); token =
page.token; events.extend(page.events) }`.  The `fuel` bound replaces the
unbounded loop; the loop guard tests the current token before fetching. -/
def fetchEventsLoop (provider : Option Nat → EventPage) :
    Nat → Option Nat → List (Option WorldEvent) → List (Option WorldEvent)
  | _, none, acc => acc
  | 0, some _, acc => acc
  | fuel + 1, some t, acc =>
      let page := provider (some t)
      fetchEventsLoop provider fuel page.continuationToken (acc ++ page.events)

/-- Shallow embedding of `WorldRemote::from_events` as written in the
source: the continuation token starts as `None`, the fetch loop runs while
the token is `Some`, every fetched event is folded with `match_event`
(decode failures skipped, replay errors propagated), and the function
returns `Ok(Self::default())`. -/
def fromEvents (provider : Option Nat → EventPage) (fuel : Nat) (w : WorldRemote) :
    Except ReplayError WorldRemote :=
  let events := fetchEventsLoop provider fuel none []
  match foldEvents w events with
  | .error e => .error e
  | .ok _ => .ok WorldRemote.default

/-- Modelled from the spec: the complete paginated event log, pages
concatenated in chain order — the first page is requested with no token,
and following pages are fetched while a continuation token is present. -/
def specFetchAllEvents (provider : Option Nat → EventPage) (fuel : Nat) :
    List (Option WorldEvent) :=
  let page := provider none
  fetchEventsLoop provider fuel page.continuationToken page.events

/-- Modelled from the spec: `from_events` as specified — fetch the whole
log and return the state obtained by folding every fetched event, in log
order, into the state. -/
def specFromEvents (provider : Option Nat → EventPage) (fuel : Nat) (w : WorldRemote) :
    Except ReplayError WorldRemote :=
  foldEvents w (specFetchAllEvents provider fuel)

/-- Class-hash history of the resource at a selector in a replay outcome
(`none` when the replay failed or the selector is absent). -/
def historyAt (r : Except ReplayError WorldRemote) (s : Felt) : Option (List Felt) :=
  match r with
  | .error _ => none
  | .ok w => (lookupA w.resources s).map ResourceRemote.classHashHistory

/-- Writer set of the resource at a selector in a replay outcome. -/
def writersAt (r : Except ReplayError WorldRemote) (s : Felt) : Option (List Felt) :=
  match r with
  | .error _ => none
  | .ok w => (lookupA w.resources s).map ResourceRemote.writersOf

/-- Owner set of the resource at a selector in a replay outcome. -/
def ownersAt (r : Except ReplayError WorldRemote) (s : Felt) : Option (List Felt) :=
  match r with
  | .error _ => none
  | .ok w => (lookupA w.resources s).map ResourceRemote.ownersOf

/-- Concrete provider: its first page carries one world-spawned event
(class hash 1) and no continuation token. -/
def c1Provider : Option Nat → EventPage := fun _ =>
  { events := [some (.worldSpawned 1)], continuationToken := none }

end Remote

namespace Migrate

open Remote (ResourceRemote computeBytearrayHash computeSelectorFromNames)

/-- Deployment status of the world in the diff (`WorldStatus`). -/
inductive WorldStatus : Type
  | NotDeployed
  | NewVersion
  | Synced
deriving DecidableEq

/-- The migration section of the profile configuration
(`MigrationConfig`), carrying the `disable_multicall` switch. -/
structure MigrationConfig where
  disableMulticall : Bool
deriving DecidableEq

/-- The profile configuration fields read by the migration
(`ProfileConfig`): the optional migration section, the optional
per-contract init-call argument lists keyed by tag, and the world seed. -/
structure ProfileConfig where
  migration : Option MigrationConfig
  initCallArgs : Option (List (String × List String))
  worldSeed : String
deriving DecidableEq

/-- Shallow embedding of `Migration::do_multicall`: multicall is enabled by
default and disabled only by an explicit `disable_multicall` flag
(`self.profile_config.migration.as_ref().map_or(true, |m| !m.disable_multicall)`). -/
def doMulticall (cfg : ProfileConfig) : Bool :=
  match cfg.migration with
  | none => true
  | some m => !m.disableMulticall

/-- Resource classification used by the planner (`ResourceType`). -/
inductive ResourceType : Type
  | Contract
  | Model
  | Event
  | Namespace
deriving DecidableEq

/-- Common data of a local resource declaration read by the planner
(`CommonLocalInfo`): name, content-addressed class hash and executable
(casm) class hash.  The compiled class artifact itself is opaque to the
planner and identified by `casmClassHash` in the declarer. -/
structure CommonLocalInfo where
  name : String
  classHash : Felt
  casmClassHash : Felt
deriving DecidableEq

/-- Local resource declarations (`ResourceLocal`), with the owning
namespace. -/
inductive ResourceLocal : Type
  | Namespace (name : String)
  | Contract (ns : String) (common : CommonLocalInfo)
  | Model (ns : String) (common : CommonLocalInfo)
  | Event (ns : String) (common : CommonLocalInfo)
deriving DecidableEq

/-- Per-resource diff classification (`ResourceDiff`). -/
inductive ResourceDiff : Type
  | Created (l : ResourceLocal)
  | Updated (l : ResourceLocal) (r : ResourceRemote)
  | Synced (l : ResourceLocal) (r : ResourceRemote)
deriving DecidableEq

/-- Local declaration underlying a diff entry. -/
def ResourceDiff.localOf : ResourceDiff → ResourceLocal
  | .Created l => l
  | .Updated l _ => l
  | .Synced l _ => l

/-- Modelled from the spec: `ResourceDiff::resource_type`, the kind of the
underlying resource. -/
def ResourceDiff.resourceType (d : ResourceDiff) : ResourceType :=
  match d.localOf with
  | .Namespace _ => .Namespace
  | .Contract _ _ => .Contract
  | .Model _ _ => .Model
  | .Event _ _ => .Event

/-- Modelled from the spec: `ResourceDiff::namespace`, the owning
namespace (a namespace resource is its own namespace). -/
def ResourceDiff.namespaceOf (d : ResourceDiff) : String :=
  match d.localOf with
  | .Namespace n => n
  | .Contract ns _ => ns
  | .Model ns _ => ns
  | .Event ns _ => ns

/-- Modelled from the spec: `ResourceDiff::tag`, the dash-joined
namespace and name. -/
def ResourceDiff.tag (d : ResourceDiff) : String :=
  match d.localOf with
  | .Namespace n => n
  | .Contract ns c => ns ++ "-" ++ c.name
  | .Model ns c => ns ++ "-" ++ c.name
  | .Event ns c => ns ++ "-" ++ c.name

/-- Modelled from the spec: `ContractLocal::dojo_selector`. -/
def ResourceDiff.dojoSelector (d : ResourceDiff) : Felt :=
  match d.localOf with
  | .Namespace n => computeBytearrayHash n
  | .Contract ns c => computeSelectorFromNames ns c.name
  | .Model ns c => computeSelectorFromNames ns c.name
  | .Event ns c => computeSelectorFromNames ns c.name

/-- World fields of the diff (`WorldStatusInfo`): deployment status and
the local world class hashes. -/
structure WorldInfo where
  status : WorldStatus
  classHash : Felt
  casmClassHash : Felt
deriving DecidableEq

/-- The computed world diff (`WorldDiff`), restricted to the fields the
planner reads: world info, namespace selectors, the per-selector resource
classification, and the permission deltas (addresses present only locally
or only remotely, per selector). -/
structure WorldDiff where
  worldInfo : WorldInfo
  namespaces : List Felt
  resources : List (Felt × ResourceDiff)
  writersOnlyLocal : List (Felt × List Felt)
  writersOnlyRemote : List (Felt × List Felt)
  ownersOnlyLocal : List (Felt × List Felt)
  ownersOnlyRemote : List (Felt × List Felt)
deriving DecidableEq

/-- Writer addresses declared locally but absent remotely for a selector
(`diff.get_writers(selector).only_local()`). -/
def WorldDiff.getWritersOnlyLocal (d : WorldDiff) (s : Felt) : List Felt :=
  (lookupA d.writersOnlyLocal s).getD []

/-- Owner addresses declared locally but absent remotely for a selector
(`diff.get_owners(selector).only_local()`). -/
def WorldDiff.getOwnersOnlyLocal (d : WorldDiff) (s : Felt) : List Felt :=
  (lookupA d.ownersOnlyLocal s).getD []

/-- Whether a diff entry is `Synced`. -/
def ResourceDiff.isSynced : ResourceDiff → Bool
  | .Synced _ _ => true
  | _ => false

/-- Modelled from the spec: `WorldDiff::is_synced` — the diff is fully
synced when the world status is `Synced` and every resource is
classified `Synced`. -/
def WorldDiff.isSynced (d : WorldDiff) : Bool :=
  d.worldInfo.status = WorldStatus.Synced && d.resources.all (fun p => p.2.isSynced)

/-- Calls accumulated into the invoker (the `*_getcall` descriptors of the
world contract that the planner emits). -/
inductive Call : Type
  | registerNamespace (name : String)
  | registerContract (selector : Felt) (ns : String) (classHash : Felt)
  | upgradeContract (ns : String) (classHash : Felt)
  | registerModel (ns : String) (classHash : Felt)
  | upgradeModel (ns : String) (classHash : Felt)
  | registerEvent (ns : String) (classHash : Felt)
  | upgradeEvent (ns : String) (classHash : Felt)
  | grantWriter (selector address : Felt)
  | grantOwner (selector address : Felt)
  | revokeWriter (selector address : Felt)
  | revokeOwner (selector address : Felt)
  | initContract (selector : Felt) (args : List Felt)
  | upgradeWorld (classHash : Felt)
deriving DecidableEq

/-- Whether a call revokes a permission (`revoke_writer`/`revoke_owner`
exist in the world contract API but the sync-permissions phase never
emits them). -/
def Call.isRevocation : Call → Bool
  | .revokeWriter _ _ => true
  | .revokeOwner _ _ => true
  | _ => false

/-- Submission mode of a batch of invoker calls. -/
inductive SubmitMode : Type
  | multicall
  | sequential
deriving DecidableEq

/-- Network operations performed by the migration: declaring a batch of
classes (declarer), declaring a single class, deploying the world through
the deterministic deployer, and submitting invoker calls. -/
inductive Action : Type
  | declareClasses (casmHashes : List Felt)
  | declareClass (casmHash : Felt)
  | deployWorld (classHash : Felt) (seed : String)
  | submit (mode : SubmitMode) (calls : List Call)
deriving DecidableEq

/-- Migration errors (`MigrationError`).  `Planning` models the typed
error of a failed `Felt::from_str` on a configured init-call argument;
`Submission` models rejection of a network operation by the external
execution collaborator; `Panic` models a Rust `expect` process abort. -/
inductive MErr : Type
  | Planning (arg : String)
  | Submission (a : Action)
  | Panic (msg : String)
deriving DecidableEq

/-- Outcome of a phase: the network operations performed (in order,
including a final rejected one) and the error that stopped the phase, if
any. -/
abbrev PhaseOut := List Action × Option MErr

/-- Perform one network operation against the submission oracle (the
external execution collaborator: `true` means the operation landed). -/
def perform (oracle : Action → Bool) (a : Action) : PhaseOut :=
  ([a], if oracle a then none else some (.Submission a))

/-- Sequence two groups of operations: the second runs only when the
first succeeded. -/
def andThen (x : PhaseOut) (f : Unit → PhaseOut) : PhaseOut :=
  match x with
  | (as0, none) =>
      let (bs, e) := f ()
      (as0 ++ bs, e)
  | (as0, some e) => (as0, some e)

/-- One transaction per call, in order, stopping at the first failure
(`Invoker::invoke_all_sequentially`). -/
def sequentialSubmit (oracle : Action → Bool) : List Call → PhaseOut
  | [] => ([], none)
  | c :: rest =>
      andThen (perform oracle (.submit .sequential [c]))
        (fun _ => sequentialSubmit oracle rest)

/-- Modelled from the spec: the invoker's submission step — one atomic
multicall of all accumulated calls, or one transaction per call
sequentially; an empty accumulator submits nothing. -/
def invokerSubmit (oracle : Action → Bool) (mode : SubmitMode) (calls : List Call) : PhaseOut :=
  match mode with
  | .multicall =>
      if calls.isEmpty then ([], none) else perform oracle (.submit .multicall calls)
  | .sequential => sequentialSubmit oracle calls

/-- Submission mode selected by the configuration
(`if self.do_multicall() { invoker.multicall() } else
{ invoker.invoke_all_sequentially() }`). -/
def cfgMode (cfg : ProfileConfig) : SubmitMode :=
  if doMulticall cfg then .multicall else .sequential

/-- Decimal digit test on a character code. -/
def isDigitNat (n : Nat) : Bool :=
  48 ≤ n && n ≤ 57

/-- Modelled from the spec: the external numeric literal parser used for
init-call arguments (`Felt::from_str`): parses a decimal numeral, fails
on a non-numeric string. -/
def parseFelt (s : String) : Option Felt :=
  if s.data.isEmpty then none
  else if s.data.all (fun c => isDigitNat c.toNat) then
    some (s.data.foldl (fun a c => a * 10 + (c.toNat - 48)) 0)
  else none

/-- Parse a configured argument list left to right, stopping at the first
non-numeric argument (the `Felt::from_str(arg)?` loop). -/
def parseArgs : List String → Except MErr (List Felt)
  | [] => .ok []
  | s :: rest =>
      match parseFelt s with
      | none => .error (.Planning s)
      | some v =>
          match parseArgs rest with
          | .error e => .error e
          | .ok vs => .ok (v :: vs)

/-- Shallow embedding of the call-accumulation loop of
`Migration::initialize_contracts`: for every diff resource of contract
type, decide `do_init` (freshly `Created`, or `Updated`/`Synced` with the
remote `initialized` flag false) and the configured argument list; when
initializing, parse the arguments (empty when none are configured) and
queue the init call on the resource's selector. -/
def initContractsCallsLoop (argsMap : List (String × List String)) :
    List (Felt × ResourceDiff) → Except MErr (List Call)
  | [] => .ok []
  | (selector, resource) :: rest =>
      if resource.resourceType = ResourceType.Contract then
        let doInitArgs : Bool × Option (List String) :=
          match resource with
          | .Created (.Contract _ _) => (true, lookupA argsMap resource.tag)
          | .Updated _ (.Contract contract) => (!contract.initialized, lookupA argsMap resource.tag)
          | .Synced _ (.Contract contract) => (!contract.initialized, lookupA argsMap resource.tag)
          | _ => (false, none)
        if doInitArgs.1 then
          let parsed : Except MErr (List Felt) :=
            match doInitArgs.2 with
            | some args => parseArgs args
            | none => .ok []
          match parsed with
          | .error e => .error e
          | .ok args =>
              match initContractsCallsLoop argsMap rest with
              | .error e => .error e
              | .ok calls => .ok (.initContract selector args :: calls)
        else
          initContractsCallsLoop argsMap rest
      else
        initContractsCallsLoop argsMap rest

/-- Call accumulation of `Migration::initialize_contracts` over the whole
diff, with the configured argument map defaulting to empty. -/
def initContractsCalls (diff : WorldDiff) (cfg : ProfileConfig) : Except MErr (List Call) :=
  initContractsCallsLoop (cfg.initCallArgs.getD []) diff.resources

/-- Shallow embedding of `Migration::initialize_contracts`: accumulate the
init calls, then submit them through the invoker in the configured
mode. -/
def initContracts (diff : WorldDiff) (cfg : ProfileConfig) (oracle : Action → Bool) : PhaseOut :=
  match initContractsCalls diff cfg with
  | .error e => ([], some e)
  | .ok calls => invokerSubmit oracle (cfgMode cfg) calls

/-- Call accumulation of `Migration::sync_permissions` over a resource
list: for every diff resource, queue one writer-grant call per
locally-only writer address, then one owner-grant call per locally-only
owner address. -/
def syncPermCallsAux (diff : WorldDiff) : List (Felt × ResourceDiff) → List Call
  | [] => []
  | p :: rest =>
      ((diff.getWritersOnlyLocal p.1).map (fun a => Call.grantWriter p.1 a)
        ++ (diff.getOwnersOnlyLocal p.1).map (fun a => Call.grantOwner p.1 a))
        ++ syncPermCallsAux diff rest

/-- Shallow embedding of the call accumulation of
`Migration::sync_permissions` over the whole diff. -/
def syncPermissionsCalls (diff : WorldDiff) : List Call :=
  syncPermCallsAux diff diff.resources

/-- Shallow embedding of `Migration::sync_permissions`. -/
def syncPermissions (diff : WorldDiff) (cfg : ProfileConfig) (oracle : Action → Bool) : PhaseOut :=
  invokerSubmit oracle (cfgMode cfg) (syncPermissionsCalls diff)

/-- Shallow embedding of `Migration::namespaces_getcalls`: for every
namespace selector of the diff, look its resource up (`expect` panics when
absent) and queue a registration call when it is `Created`. -/
def namespacesGetcalls (diff : WorldDiff) : List Felt → Except MErr (List Call)
  | [] => .ok []
  | s :: rest =>
      match lookupA diff.resources s with
      | none => .error (.Panic "Namespace not found in diff.")
      | some r =>
          match namespacesGetcalls diff rest with
          | .error e => .error e
          | .ok calls =>
              match r with
              | .Created (.Namespace n) => .ok (.registerNamespace n :: calls)
              | _ => .ok calls

/-- Declarer additions and invoker calls of `Migration::contracts_getcalls`,
`models_getcalls` and `events_getcalls` for one diff resource: `Created`
resources get their class declared and a registration call, `Updated`
resources (whose remote counterpart has the same variant) get their class
declared and an upgrade call; `Synced` resources are skipped. -/
def resourceGetcalls (resource : ResourceDiff) : List Felt × List Call :=
  match resource with
  | .Created (.Contract ns c) =>
      ([c.casmClassHash], [.registerContract (computeSelectorFromNames ns c.name) ns c.classHash])
  | .Updated (.Contract ns c) (ResourceRemote.Contract _) =>
      ([c.casmClassHash], [.upgradeContract ns c.classHash])
  | .Created (.Model ns c) =>
      ([c.casmClassHash], [.registerModel ns c.classHash])
  | .Updated (.Model ns c) (ResourceRemote.Model _) =>
      ([c.casmClassHash], [.upgradeModel ns c.classHash])
  | .Created (.Event ns c) =>
      ([c.casmClassHash], [.registerEvent ns c.classHash])
  | .Updated (.Event ns c) (ResourceRemote.Event _) =>
      ([c.casmClassHash], [.upgradeEvent ns c.classHash])
  | _ => ([], [])

/-- Accumulate declarer classes and invoker calls over the diff resources
(the loop of `Migration::sync_resources`). -/
def resourcesGetcalls : List (Felt × ResourceDiff) → List Felt × List Call
  | [] => ([], [])
  | (_, r) :: rest =>
      let (cs, calls) := resourceGetcalls r
      let (cs2, calls2) := resourcesGetcalls rest
      (cs ++ cs2, calls ++ calls2)

/-- Deduplicate declarer classes by their casm class hash key (the
declarer accumulates classes in a map keyed by casm hash). -/
def dedupKeepFirst : List Felt → List Felt
  | [] => []
  | x :: rest => if x ∈ rest then dedupKeepFirst rest else x :: dedupKeepFirst rest

/-- Modelled from the spec: `Declarer::declare_all` submits the batch of
accumulated classes, deduplicated by class-hash key; an empty batch
submits nothing. -/
def declarerDeclareAll (oracle : Action → Bool) (casms : List Felt) : PhaseOut :=
  if casms.isEmpty then ([], none) else perform oracle (.declareClasses (dedupKeepFirst casms))

/-- Shallow embedding of `Migration::sync_resources`: namespace calls
first, then per-resource declarer additions and register/upgrade calls,
then the declarer batch, then the invoker submission in the configured
mode. -/
def syncResources (diff : WorldDiff) (cfg : ProfileConfig) (oracle : Action → Bool) : PhaseOut :=
  match namespacesGetcalls diff diff.namespaces with
  | .error e => ([], some e)
  | .ok nsCalls =>
      let (casms, resCalls) := resourcesGetcalls diff.resources
      andThen (declarerDeclareAll oracle casms)
        (fun _ => invokerSubmit oracle (cfgMode cfg) (nsCalls ++ resCalls))

/-- Shallow embedding of `Migration::ensure_world`: `Synced` is a no-op;
`NotDeployed` declares the world class and deploys it through the
deterministic deployer salted by the configured seed; `NewVersion`
declares the new class and submits the world-upgrade call through a
direct `invoker.multicall()` (not the configured mode). -/
def ensureWorld (diff : WorldDiff) (cfg : ProfileConfig) (oracle : Action → Bool) : PhaseOut :=
  match diff.worldInfo.status with
  | .Synced => ([], none)
  | .NotDeployed =>
      andThen (perform oracle (.declareClass diff.worldInfo.casmClassHash))
        (fun _ => perform oracle (.deployWorld diff.worldInfo.classHash cfg.worldSeed))
  | .NewVersion =>
      andThen (perform oracle (.declareClass diff.worldInfo.casmClassHash))
        (fun _ => perform oracle (.submit .multicall [.upgradeWorld diff.worldInfo.classHash]))

/-- The four migration phases. -/
inductive Phase : Type
  | EnsureWorld
  | SyncResources
  | SyncPermissions
  | InitContracts
deriving DecidableEq

/-- Dispatch a phase to its implementation. -/
def phaseRun (diff : WorldDiff) (cfg : ProfileConfig) (oracle : Action → Bool) : Phase → PhaseOut
  | .EnsureWorld => ensureWorld diff cfg oracle
  | .SyncResources => syncResources diff cfg oracle
  | .SyncPermissions => syncPermissions diff cfg oracle
  | .InitContracts => initContracts diff cfg oracle

/-- The strict phase order of a run: ensure world, sync resources (absent
when the diff is already fully synced), sync permissions, initialize the
contracts. -/
def migratePhaseList (diff : WorldDiff) : List Phase :=
  [.EnsureWorld] ++ (if diff.isSynced then [] else [.SyncResources])
    ++ [.SyncPermissions, .InitContracts]

/-- The manifest produced by a successful run (`Manifest::new(&diff)`),
kept abstract as the selectors of the applied diff. -/
structure Manifest where
  selectors : List Felt
deriving DecidableEq

/-- Modelled from the spec: the produced manifest summarizes the applied
diff. -/
def Manifest.ofDiff (diff : WorldDiff) : Manifest :=
  ⟨diff.resources.map Prod.fst⟩

/-- Shallow embedding of `Migration::migrate`: run ensure-world, then (when
the diff is not fully synced) sync-resources, then sync-permissions, then
initialize-contracts; each `?` aborts the remaining phases with the
error.  Returns the per-phase network operations and the result. -/
def migrate (diff : WorldDiff) (cfg : ProfileConfig) (oracle : Action → Bool) :
    List (Phase × List Action) × Except MErr Manifest :=
  match ensureWorld diff cfg oracle with
  | (a1, some e) => ([(.EnsureWorld, a1)], .error e)
  | (a1, none) =>
      let afterResources :
          List (Phase × List Action) × Option MErr :=
        if diff.isSynced then ([], none)
        else
          match syncResources diff cfg oracle with
          | (a2, some e) => ([(.SyncResources, a2)], some e)
          | (a2, none) => ([(.SyncResources, a2)], none)
      match afterResources with
      | (tr2, some e) => ((.EnsureWorld, a1) :: tr2, .error e)
      | (tr2, none) =>
          match syncPermissions diff cfg oracle with
          | (a3, some e) => ((.EnsureWorld, a1) :: tr2 ++ [(.SyncPermissions, a3)], .error e)
          | (a3, none) =>
              match initContracts diff cfg oracle with
              | (a4, some e) =>
                  ((.EnsureWorld, a1) :: tr2 ++ [(.SyncPermissions, a3), (.InitContracts, a4)],
                    .error e)
              | (a4, none) =>
                  ((.EnsureWorld, a1) :: tr2 ++ [(.SyncPermissions, a3), (.InitContracts, a4)],
                    .ok (Manifest.ofDiff diff))

/-- Reference phase runner: execute phases in order, stopping at the first
failing phase, recording each attempted phase with its operations. -/
def runPhases (run : Phase → PhaseOut) : List Phase → List (Phase × List Action) × Option MErr
  | [] => ([], none)
  | p :: ps =>
      match run p with
      | (as0, some e) => ([(p, as0)], some e)
      | (as0, none) =>
          let (tr, r) := runPhases run ps
          ((p, as0) :: tr, r)

/-- Package a phase-runner outcome as the migrate result. -/
def packageRun (diff : WorldDiff) (x : List (Phase × List Action) × Option MErr) :
    List (Phase × List Action) × Except MErr Manifest :=
  match x with
  | (tr, none) => (tr, .ok (Manifest.ofDiff diff))
  | (tr, some e) => (tr, .error e)

/-- Initialization flag of the remote counterpart of a diff entry; a
counterpart that is not a contract has no flag and is treated as already
initialized (such an entry cannot get an init call). -/
def remoteInitFlag : ResourceRemote → Bool
  | ResourceRemote.Contract c => c.initialized
  | _ => true

/-- Stated from the spec sentence of C8: an initialization call is due
exactly for diff resources that are contracts and are either freshly
`Created`, or `Updated`/`Synced` with the remote initialized flag
false. -/
def specNeedsInit (d : ResourceDiff) : Bool :=
  d.resourceType = ResourceType.Contract &&
    (match d with
     | .Created _ => true
     | .Updated _ r => !(remoteInitFlag r)
     | .Synced _ r => !(remoteInitFlag r))

/-- Stated from the spec sentence of C8: the arguments of an
initialization call are the configured per-contract felt literals, or the
empty list when none are configured. -/
def specInitArgs (cfg : ProfileConfig) (d : ResourceDiff) : List Felt :=
  ((lookupA (cfg.initCallArgs.getD []) d.tag).getD []).filterMap parseFelt

/-- Concrete local contract declaration (namespace "ns", name "c", class
hash 1, casm class hash 2) used by the concrete scenarios. -/
def exContract : ResourceLocal := .Contract "ns" ⟨"c", 1, 2⟩

/-- Selector of the concrete contract. -/
def exSelector : Felt := computeSelectorFromNames "ns" "c"

/-- Concrete diff: a new world version (class hash 7, casm 8) and one
freshly created contract. -/
def exDiff : WorldDiff :=
  { worldInfo := ⟨.NewVersion, 7, 8⟩,
    namespaces := [],
    resources := [(exSelector, .Created exContract)],
    writersOnlyLocal := [],
    writersOnlyRemote := [],
    ownersOnlyLocal := [],
    ownersOnlyRemote := [] }

/-- Configuration with a non-numeric init argument for the contract's
tag. -/
def exBadCfg : ProfileConfig :=
  { migration := none, initCallArgs := some [("ns-c", ["abc"])], worldSeed := "sd" }

/-- Configuration with numeric init arguments for the contract's tag. -/
def exGoodCfg : ProfileConfig :=
  { migration := none, initCallArgs := some [("ns-c", ["5", "0"])], worldSeed := "sd" }

/-- Configuration with `disable_multicall` set. -/
def exSeqCfg : ProfileConfig :=
  { migration := some ⟨true⟩, initCallArgs := none, worldSeed := "sd" }

/-- Concrete diff with permission deltas on one synced namespace. -/
def exPermDiff : WorldDiff :=
  { worldInfo := ⟨.Synced, 7, 8⟩,
    namespaces := [10],
    resources := [(10, .Synced (.Namespace "ns") (ResourceRemote.Namespace (Remote.NamespaceRemote.new "ns")))],
    writersOnlyLocal := [(10, [1])],
    writersOnlyRemote := [(10, [4])],
    ownersOnlyLocal := [(10, [2, 3])],
    ownersOnlyRemote := [(10, [5])] }

end Migrate

namespace Executor

/-- Transactions are opaque to the result-pairing logic; we identify them
by their hash. -/
abbrev Tx := Nat

/-- Fields of the underlying executor's `TransactionExecutionInfo` that
`execute_transactions` reads: the receipt fee, the consumed L1 gas, the
VM step count, and the revert reason when the transaction reverted. -/
structure TxInfo where
  fee : Nat
  gasL1 : Nat
  steps : Nat
  revertReason : Option String
deriving DecidableEq

/-- Per-transaction outcome of the underlying `TransactionExecutor`
(`TransactionExecutorResult`): success, the two error variants, or the
block-full signal. -/
inductive RawResult : Type
  | ok (info : TxInfo)
  | stateError (msg : String)
  | txExecutionError (msg : String)
  | blockFull
deriving DecidableEq

/-- Whether a raw result is the block-full signal. -/
def RawResult.isBlockFull : RawResult → Bool
  | .blockFull => true
  | _ => false

/-- The receipt recorded for a successful transaction, with its
resource-usage accounting. -/
structure Receipt where
  overallFee : Nat
  gasConsumed : Nat
  steps : Nat
  revertReason : Option String
deriving DecidableEq

/-- Per-transaction result recorded by the processor
(`ExecutionResult`). -/
inductive ExecutionResult : Type
  | success (receipt : Receipt)
  | failed (msg : String)
deriving DecidableEq

/-- Receipt construction of the success branch: when the receipt fee is
zero the fee is recomputed from the gas vector
(`get_fee_by_gas_vector`, modelled by the `gasToFee` parameter),
otherwise the receipt fee is kept; gas consumed is the L1 gas. -/
def buildReceipt (gasToFee : Nat → Nat) (info : TxInfo) : Receipt :=
  { overallFee := if info.fee = 0 then gasToFee info.gasL1 else info.fee,
    gasConsumed := info.gasL1,
    steps := info.steps,
    revertReason := info.revertReason }

/-- Shallow embedding of the result loop of `execute_transactions`
(`for (res, tx) in results.into_iter().zip(transactions.iter())`): each
`Ok` pushes a success result, each error variant pushes a failed result,
and `BlockFull` breaks out of the loop. -/
def processPairs (gasToFee : Nat → Nat) : List (RawResult × Tx) → List ExecutionResult
  | [] => []
  | (.ok info, _) :: rest => .success (buildReceipt gasToFee info) :: processPairs gasToFee rest
  | (.stateError m, _) :: rest => .failed m :: processPairs gasToFee rest
  | (.txExecutionError m, _) :: rest => .failed m :: processPairs gasToFee rest
  | (.blockFull, _) :: _ => []

/-- Execution statistics accumulated over successful results
(`ExecutionStats`): total L1 gas and total cairo steps. -/
structure ExecStats where
  l1GasUsed : Nat
  cairoStepsUsed : Nat
deriving DecidableEq

/-- Accumulate the statistics of the processed results. -/
def statsOf : List ExecutionResult → ExecStats
  | [] => ⟨0, 0⟩
  | .success r :: rest =>
      let s := statsOf rest
      ⟨r.gasConsumed + s.l1GasUsed, r.steps + s.cairoStepsUsed⟩
  | .failed _ :: rest => statsOf rest

/-- Shallow embedding of `StarknetVMProcessor::execute_transactions`: zip
the raw results of the underlying executor with the submitted
transactions, process them (stopping at `BlockFull`), and record
`self.transactions = txs.zip(execution_results)`. -/
def executeTransactions (gasToFee : Nat → Nat) (txs : List Tx) (raw : List RawResult) :
    List (Tx × ExecutionResult) × ExecStats :=
  let results := processPairs gasToFee (raw.zip txs)
  (txs.zip results, statsOf results)

/-- Modelled from the spec: the per-operation result contract of the
execution collaborator — success with receipt for an `Ok`, failure with
the error for an error variant. -/
def specResult (gasToFee : Nat → Nat) : RawResult → ExecutionResult
  | .ok info => .success (buildReceipt gasToFee info)
  | .stateError m => .failed m
  | .txExecutionError m => .failed m
  | .blockFull => .failed "block is full"

end Executor

namespace Remote

theorem lookupA_updateA_self {α β : Type} [DecidableEq α] (m : List (α × β)) (k : α) (f : β → β) :
    lookupA (updateA m k f) k = (lookupA m k).map f := by
  induction m with
  | nil => rfl
  | cons p rest ih =>
    obtain ⟨k0, v0⟩ := p
    by_cases h : k = k0
    · subst h
      simp [updateA, lookupA]
    · simp [updateA, lookupA, h, ih]

theorem matchEvent_writerUpdated (w : WorldRemote) (s a : Felt) (v : Bool) (r : ResourceRemote)
    (h : lookupA w.resources s = some r) :
    w.matchEvent (.writerUpdated s a v) =
      .ok { w with resources := updateA w.resources s (fun r0 => r0.updateWriter a v) } := by
  simp [WorldRemote.matchEvent, h]

theorem matchEvent_ownerUpdated (w : WorldRemote) (s a : Felt) (v : Bool) (r : ResourceRemote)
    (h : lookupA w.resources s = some r) :
    w.matchEvent (.ownerUpdated s a v) =
      .ok { w with resources := updateA w.resources s (fun r0 => r0.updateOwner a v) } := by
  simp [WorldRemote.matchEvent, h]

theorem matchEvent_modelUpgraded (w : WorldRemote) (s ch : Felt) (r : ResourceRemote)
    (h : lookupA w.resources s = some r) :
    w.matchEvent (.modelUpgraded s ch) =
      .ok { w with resources := updateA w.resources s (fun r0 => r0.pushClassHash ch) } := by
  simp [WorldRemote.matchEvent, h]

theorem foldEvents_nil (w : WorldRemote) : foldEvents w [] = .ok w := rfl

theorem foldEvents_cons_ok {w w' : WorldRemote} {e : WorldEvent}
    (rest : List (Option WorldEvent)) (h : w.matchEvent e = .ok w') :
    foldEvents w (some e :: rest) = foldEvents w' rest := by
  simp [foldEvents, foldEventsL, h]

theorem lookup_after_update (w : WorldRemote) (s : Felt) (f : ResourceRemote → ResourceRemote)
    (r : ResourceRemote) (h : lookupA w.resources s = some r) :
    lookupA ({ w with resources := updateA w.resources s f } : WorldRemote).resources s
      = some (f r) := by
  show lookupA (updateA w.resources s f) s = some (f r)
  rw [lookupA_updateA_self, h]
  rfl

theorem writersOf_updateWriter_true (r : ResourceRemote) (a : Felt) :
    (r.updateWriter a true).writersOf = setInsert r.writersOf a := by
  cases r <;> rfl

theorem writersOf_updateWriter_false (r : ResourceRemote) (a : Felt) :
    (r.updateWriter a false).writersOf = setRemove r.writersOf a := by
  cases r <;> rfl

theorem ownersOf_updateOwner_true (r : ResourceRemote) (a : Felt) :
    (r.updateOwner a true).ownersOf = setInsert r.ownersOf a := by
  cases r <;> rfl

theorem ownersOf_updateOwner_false (r : ResourceRemote) (a : Felt) :
    (r.updateOwner a false).ownersOf = setRemove r.ownersOf a := by
  cases r <;> rfl

theorem setRemove_not_mem {l : List Felt} {b : Felt} (h : b ∉ l) : setRemove l b = l := by
  induction l with
  | nil => rfl
  | cons x xs ih =>
    simp only [List.mem_cons, not_or] at h
    have hxb : x ≠ b := fun hx => h.1 hx.symm
    have ihx : setRemove xs b = xs := ih h.2
    simp only [setRemove, List.filter_cons] at ihx ⊢
    simp [hxb, ihx]
    exact fun a ha hab => h.2 (hab ▸ ha)

/-- C1: the claim states that `from_events` retrieves the complete
paginated event log and returns the state obtained by folding every
fetched event; the code instead never enters its fetch loop (the
continuation token starts as `None` and the loop runs only while it is
`Some`) and returns `Ok(Self::default())`, so the result is always the
default (empty) world state.  At the concrete provider `c1Provider`, the
specified fold would record world class hash 1, which differs from the
returned default. -/
theorem c1_fromEvents_discards_all_events :
    (∀ (p : Option Nat → EventPage) (fuel : Nat) (w : WorldRemote),
        fromEvents p fuel w = .ok WorldRemote.default)
    ∧ specFromEvents c1Provider 4 WorldRemote.default
        = .ok { WorldRemote.default with classHashes := [1] }
    ∧ ({ WorldRemote.default with classHashes := [1] } : WorldRemote) ≠ WorldRemote.default := by
  refine ⟨?_, rfl, ?_⟩
  · intro p fuel w
    simp [fromEvents, fetchEventsLoop, foldEvents, foldEventsL]
  · decide

/-- C2 counterexample: replaying a `ContractUpgraded` event whose selector
is absent from the resources registry does not produce the typed
invariant error the claim describes: it hits the source's
`self.resources.get_mut(&e.selector).unwrap()`, modelled by the
`panicMissingResource` outcome — an unrecoverable panic, not a typed
error surfaced to the caller. -/
theorem c2_counterexample :
    WorldRemote.default.matchEvent (.contractUpgraded 5 9)
        = .error (.panicMissingResource 5)
    ∧ ReplayError.isPanic (.panicMissingResource 5) = true :=
  ⟨rfl, rfl⟩

/-- C2 amended: replaying a `ModelUpgraded`, `EventUpgraded`,
`ContractUpgraded`, `ContractInitialized`, `WriterUpdated` or
`OwnerUpdated` event whose selector is absent from the resources registry
aborts the build through the `unwrap` panic on the failed selector lookup
(an unrecoverable crash), not through a typed `InvariantViolation` error
returned to the caller. -/
theorem c2_amended (w : WorldRemote) (s ch a : Felt) (v : Bool)
    (h : lookupA w.resources s = none) :
    w.matchEvent (.modelUpgraded s ch) = .error (.panicMissingResource s)
    ∧ w.matchEvent (.eventUpgraded s ch) = .error (.panicMissingResource s)
    ∧ w.matchEvent (.contractUpgraded s ch) = .error (.panicMissingResource s)
    ∧ w.matchEvent (.contractInitialized s) = .error (.panicMissingResource s)
    ∧ w.matchEvent (.writerUpdated s a v) = .error (.panicMissingResource s)
    ∧ w.matchEvent (.ownerUpdated s a v) = .error (.panicMissingResource s) := by
  refine ⟨?_, ?_, ?_, ?_, ?_, ?_⟩ <;> simp [WorldRemote.matchEvent, h]

/-- Witness for C2 amended: the empty world state and selector 5. -/
theorem c2_amended_witness :
    lookupA WorldRemote.default.resources 5 = none
    ∧ WorldRemote.default.matchEvent (.modelUpgraded 5 9)
        = .error (.panicMissingResource 5)
    ∧ WorldRemote.default.matchEvent (.writerUpdated 5 3 true)
        = .error (.panicMissingResource 5) :=
  ⟨rfl, (c2_amended WorldRemote.default 5 9 3 true rfl).1,
    (c2_amended WorldRemote.default 5 9 3 true rfl).2.2.2.2.1⟩

/-- C5: starting from the empty state, replaying `ModelRegistered` for
namespace "ns", name "m", class hash `c1` followed by `ModelUpgraded` for
`selector("ns","m")` with class hash `c2` yields a resource whose
class-hash history is exactly `[c1, c2]`; registration creates a
single-element history, and an upgrade of any registered non-namespace
resource appends exactly one element to its history. -/
theorem c5_registration_then_upgrade_history :
    (∀ c1 c2 addr : Felt,
        historyAt (foldEvents WorldRemote.default
          [some (.modelRegistered "ns" "m" c1 addr),
           some (.modelUpgraded (computeSelectorFromNames "ns" "m") c2)])
          (computeSelectorFromNames "ns" "m") = some [c1, c2])
    ∧ (∀ (ns nm : String) (ch addr : Felt),
        historyAt (foldEvents WorldRemote.default [some (.modelRegistered ns nm ch addr)])
          (computeSelectorFromNames ns nm) = some [ch])
    ∧ (∀ (w : WorldRemote) (s ch : Felt) (r : ResourceRemote),
        lookupA w.resources s = some r → r.isNamespace = false →
        historyAt (w.matchEvent (.modelUpgraded s ch)) s
          = some (r.classHashHistory ++ [ch])) := by
  refine ⟨?_, ?_, ?_⟩
  · intro c1 c2 addr
    rfl
  · intro ns nm ch addr
    simp [foldEvents, foldEventsL, WorldRemote.matchEvent, WorldRemote.addResource,
      CommonResourceRemoteInfo.new, historyAt, lookupA, insertA,
      ResourceRemote.classHashHistory, WorldRemote.default]
  · intro w s ch r h hns
    rw [matchEvent_modelUpgraded w s ch r h]
    show (lookupA (updateA w.resources s (fun r0 => r0.pushClassHash ch)) s).map
      ResourceRemote.classHashHistory = some (r.classHashHistory ++ [ch])
    rw [lookupA_updateA_self, h]
    cases r with
    | Namespace n => simp [ResourceRemote.isNamespace] at hns
    | Contract c => rfl
    | Model m => rfl
    | Event e => rfl

/-- Witness for C5: concrete class hashes 3, 4 and a concrete registered
model world for the append part. -/
theorem c5_witness :
    historyAt (foldEvents WorldRemote.default
      [some (.modelRegistered "ns" "m" 3 4),
       some (.modelUpgraded (computeSelectorFromNames "ns" "m") 5)])
      (computeSelectorFromNames "ns" "m") = some [3, 5]
    ∧ historyAt (foldEvents WorldRemote.default [some (.modelRegistered "a" "b" 3 4)])
        (computeSelectorFromNames "a" "b") = some [3]
    ∧ historyAt
        ((WorldRemote.default.addResource "ns"
          (.Model { common := CommonResourceRemoteInfo.new 3 "m" 4 })).matchEvent
            (.modelUpgraded (computeSelectorFromNames "ns" "m") 6))
        (computeSelectorFromNames "ns" "m") = some [3, 6] :=
  ⟨c5_registration_then_upgrade_history.1 3 5 4,
    c5_registration_then_upgrade_history.2.1 "a" "b" 3 4,
    by
      have h := c5_registration_then_upgrade_history.2.2
        (WorldRemote.default.addResource "ns"
          (.Model { common := CommonResourceRemoteInfo.new 3 "m" 4 }))
        (computeSelectorFromNames "ns" "m") 6
        (.Model { common := CommonResourceRemoteInfo.new 3 "m" 4 }) (by rfl) (by rfl)
      exact h⟩

/-- C6 counterexample: the claim quantifies over every selector present in
`resources`; for a namespace whose writer set already contains address 2,
granting address 1 twice yields the writer set `[2, 1]`, which is not the
singleton set containing only address 1. -/
theorem c6_counterexample :
    writersAt (foldEvents WorldRemote.default
      [some (.namespaceRegistered "ns"),
       some (.writerUpdated (computeBytearrayHash "ns") 2 true),
       some (.writerUpdated (computeBytearrayHash "ns") 1 true),
       some (.writerUpdated (computeBytearrayHash "ns") 1 true)])
      (computeBytearrayHash "ns") = some [2, 1]
    ∧ ¬ (∀ x : Felt, x ∈ ([2, 1] : List Felt) ↔ x ∈ ([1] : List Felt)) := by
  constructor
  · rfl
  · intro hset
    have h2 := (hset 2).mp (by simp)
    simp at h2

/-- C6 amended: for every selector present in `resources` whose writer
(resp. owner) set is empty, granting an address twice yields the
singleton set of that address (duplicate grant is a no-op), a subsequent
revocation yields the empty set, and revoking an address absent from the
set leaves the set unchanged; writers and owners behave identically. -/
theorem c6_amended :
    (∀ (w : WorldRemote) (s a : Felt) (r : ResourceRemote),
        lookupA w.resources s = some r → r.writersOf = [] →
        writersAt (foldEvents w
          [some (.writerUpdated s a true), some (.writerUpdated s a true)]) s = some [a]
        ∧ writersAt (foldEvents w
          [some (.writerUpdated s a true), some (.writerUpdated s a true),
           some (.writerUpdated s a false)]) s = some [])
    ∧ (∀ (w : WorldRemote) (s b : Felt) (r : ResourceRemote),
        lookupA w.resources s = some r → b ∉ r.writersOf →
        writersAt (w.matchEvent (.writerUpdated s b false)) s = some r.writersOf)
    ∧ (∀ (w : WorldRemote) (s a : Felt) (r : ResourceRemote),
        lookupA w.resources s = some r → r.ownersOf = [] →
        ownersAt (foldEvents w
          [some (.ownerUpdated s a true), some (.ownerUpdated s a true)]) s = some [a]
        ∧ ownersAt (foldEvents w
          [some (.ownerUpdated s a true), some (.ownerUpdated s a true),
           some (.ownerUpdated s a false)]) s = some [])
    ∧ (∀ (w : WorldRemote) (s b : Felt) (r : ResourceRemote),
        lookupA w.resources s = some r → b ∉ r.ownersOf →
        ownersAt (w.matchEvent (.ownerUpdated s b false)) s = some r.ownersOf) := by
  refine ⟨?_, ?_, ?_, ?_⟩
  · intro w s a r h hw
    have e1 := matchEvent_writerUpdated w s a true r h
    have l1 := lookup_after_update w s (fun r0 => r0.updateWriter a true) r h
    have hw1 : (r.updateWriter a true).writersOf = [a] := by
      rw [writersOf_updateWriter_true, hw]
      rfl
    have e2 := matchEvent_writerUpdated _ s a true _ l1
    have l2 := lookup_after_update _ s (fun r0 => r0.updateWriter a true) _ l1
    have hw2 : ((r.updateWriter a true).updateWriter a true).writersOf = [a] := by
      rw [writersOf_updateWriter_true, hw1]
      simp [setInsert]
    constructor
    · rw [foldEvents_cons_ok _ e1, foldEvents_cons_ok _ e2, foldEvents_nil]
      simp [writersAt, l2, hw2]
    · rw [foldEvents_cons_ok _ e1, foldEvents_cons_ok _ e2]
      have e3 := matchEvent_writerUpdated _ s a false _ l2
      have l3 := lookup_after_update _ s (fun r0 => r0.updateWriter a false) _ l2
      rw [foldEvents_cons_ok _ e3, foldEvents_nil]
      simp [writersAt, l3, writersOf_updateWriter_false, hw2, setRemove]
  · intro w s b r h hb
    rw [matchEvent_writerUpdated w s b false r h]
    have l1 := lookup_after_update w s (fun r0 => r0.updateWriter b false) r h
    simp [writersAt, l1, writersOf_updateWriter_false, setRemove_not_mem hb]
  · intro w s a r h ho
    have e1 := matchEvent_ownerUpdated w s a true r h
    have l1 := lookup_after_update w s (fun r0 => r0.updateOwner a true) r h
    have ho1 : (r.updateOwner a true).ownersOf = [a] := by
      rw [ownersOf_updateOwner_true, ho]
      rfl
    have e2 := matchEvent_ownerUpdated _ s a true _ l1
    have l2 := lookup_after_update _ s (fun r0 => r0.updateOwner a true) _ l1
    have ho2 : ((r.updateOwner a true).updateOwner a true).ownersOf = [a] := by
      rw [ownersOf_updateOwner_true, ho1]
      simp [setInsert]
    constructor
    · rw [foldEvents_cons_ok _ e1, foldEvents_cons_ok _ e2, foldEvents_nil]
      simp [ownersAt, l2, ho2]
    · rw [foldEvents_cons_ok _ e1, foldEvents_cons_ok _ e2]
      have e3 := matchEvent_ownerUpdated _ s a false _ l2
      have l3 := lookup_after_update _ s (fun r0 => r0.updateOwner a false) _ l2
      rw [foldEvents_cons_ok _ e3, foldEvents_nil]
      simp [ownersAt, l3, ownersOf_updateOwner_false, ho2, setRemove]
  · intro w s b r h hb
    rw [matchEvent_ownerUpdated w s b false r h]
    have l1 := lookup_after_update w s (fun r0 => r0.updateOwner b false) r h
    simp [ownersAt, l1, ownersOf_updateOwner_false, setRemove_not_mem hb]

/-- Witness for C6 amended: a freshly registered namespace (empty writer
and owner sets) at its selector, with address 1. -/
theorem c6_amended_witness :
    lookupA (WorldRemote.default.addResource "ns"
        (.Namespace (NamespaceRemote.new "ns"))).resources (computeBytearrayHash "ns")
      = some (.Namespace (NamespaceRemote.new "ns"))
    ∧ writersAt (foldEvents
        (WorldRemote.default.addResource "ns" (.Namespace (NamespaceRemote.new "ns")))
        [some (.writerUpdated (computeBytearrayHash "ns") 1 true),
         some (.writerUpdated (computeBytearrayHash "ns") 1 true)])
        (computeBytearrayHash "ns") = some [1]
    ∧ ownersAt (foldEvents
        (WorldRemote.default.addResource "ns" (.Namespace (NamespaceRemote.new "ns")))
        [some (.ownerUpdated (computeBytearrayHash "ns") 1 true),
         some (.ownerUpdated (computeBytearrayHash "ns") 1 true),
         some (.ownerUpdated (computeBytearrayHash "ns") 1 false)])
        (computeBytearrayHash "ns") = some [] :=
  ⟨rfl,
    (c6_amended.1 (WorldRemote.default.addResource "ns"
        (.Namespace (NamespaceRemote.new "ns"))) (computeBytearrayHash "ns") 1
        (.Namespace (NamespaceRemote.new "ns")) rfl rfl).1,
    (c6_amended.2.2.1 (WorldRemote.default.addResource "ns"
        (.Namespace (NamespaceRemote.new "ns"))) (computeBytearrayHash "ns") 1
        (.Namespace (NamespaceRemote.new "ns")) rfl rfl).2⟩

end Remote

namespace Migrate

theorem migrate_eq_runPhases (diff : WorldDiff) (cfg : ProfileConfig) (oracle : Action → Bool) :
    migrate diff cfg oracle
      = packageRun diff (runPhases (phaseRun diff cfg oracle) (migratePhaseList diff)) := by
  rcases hE : ensureWorld diff cfg oracle with ⟨a1, e1⟩
  by_cases hs : diff.isSynced = true <;>
    rcases hR : syncResources diff cfg oracle with ⟨a2, e2⟩ <;>
    rcases hP : syncPermissions diff cfg oracle with ⟨a3, e3⟩ <;>
    rcases hI : initContracts diff cfg oracle with ⟨a4, e4⟩ <;>
    cases e1 <;> cases e2 <;> cases e3 <;> cases e4 <;>
    simp [migrate, packageRun, migratePhaseList, phaseRun, runPhases, hE, hR, hP, hI, hs,
      Bool.not_eq_true] at *

theorem runPhases_first_error (run : Phase → PhaseOut) (l1 : List Phase) (p : Phase)
    (l2 : List Phase) (h1 : ∀ q ∈ l1, (run q).2 = none) (e : MErr) (hp : (run p).2 = some e) :
    runPhases run (l1 ++ p :: l2)
      = (l1.map (fun q => (q, (run q).1)) ++ [(p, (run p).1)], some e) := by
  induction l1 with
  | nil =>
    rcases hr : run p with ⟨as0, e0⟩
    have : e0 = some e := by rw [hr] at hp; exact hp
    subst this
    simp [runPhases, hr]
  | cons q qs ih =>
    rcases hq : run q with ⟨aq, eq0⟩
    have : eq0 = none := by
      have := h1 q (by simp)
      rw [hq] at this
      exact this
    subst this
    have ih2 := ih (fun q2 hq2 => h1 q2 (by simp [hq2]))
    simp [runPhases, hq, ih2]

/-- C3: `Migration::migrate` runs exactly the four phases ensure-world,
sync-resources (skipped when the diff is fully synced), sync-permissions,
initialize-contracts, in this strict order (the whole run equals the
reference sequential phase runner over `migratePhaseList`), and when the
phases before `p` succeed and `p` fails with error `e`, the run stops: the
result is `MigrationError e` and the executed phases are exactly those up
to and including `p`. -/
theorem c3_migrate_four_phases_abort (diff : WorldDiff) (cfg : ProfileConfig)
    (oracle : Action → Bool) :
    migrate diff cfg oracle
      = packageRun diff (runPhases (phaseRun diff cfg oracle) (migratePhaseList diff))
    ∧ migratePhaseList diff
      = [Phase.EnsureWorld] ++ (if diff.isSynced then [] else [Phase.SyncResources])
          ++ [Phase.SyncPermissions, Phase.InitContracts]
    ∧ (∀ (l1 : List Phase) (p : Phase) (l2 : List Phase),
        migratePhaseList diff = l1 ++ p :: l2 →
        (∀ q ∈ l1, (phaseRun diff cfg oracle q).2 = none) →
        ∀ e : MErr, (phaseRun diff cfg oracle p).2 = some e →
        (migrate diff cfg oracle).2 = .error e
        ∧ (migrate diff cfg oracle).1.map Prod.fst = l1 ++ [p]) := by
  refine ⟨migrate_eq_runPhases diff cfg oracle, rfl, ?_⟩
  intro l1 p l2 hdecomp hok e he
  have hrp := runPhases_first_error (phaseRun diff cfg oracle) l1 p l2 hok e he
  rw [migrate_eq_runPhases diff cfg oracle, hdecomp, hrp]
  constructor
  · rfl
  · show (l1.map (fun q => (q, (phaseRun diff cfg oracle q).1))
        ++ [(p, (phaseRun diff cfg oracle p).1)]).map Prod.fst = l1 ++ [p]
    rw [List.map_append, List.map_map]
    have hid : (Prod.fst ∘ fun q => (q, (phaseRun diff cfg oracle q).1)) = id :=
      funext (fun q => rfl)
    rw [hid, List.map_id]
    rfl

/-- Witness for C3: the concrete diff with a bad init argument — the three
earlier phases succeed, initialize-contracts fails with the planning
error, the run returns that error and the executed phases stop there. -/
theorem c3_witness :
    (migrate exDiff exBadCfg (fun _ => true)).2 = .error (.Planning "abc")
    ∧ (migrate exDiff exBadCfg (fun _ => true)).1.map Prod.fst
        = [Phase.EnsureWorld, Phase.SyncResources, Phase.SyncPermissions]
            ++ [Phase.InitContracts] :=
  (c3_migrate_four_phases_abort exDiff exBadCfg (fun _ => true)).2.2
    [Phase.EnsureWorld, Phase.SyncResources, Phase.SyncPermissions] Phase.InitContracts []
    (by decide)
    (by
      intro q hq
      simp only [List.mem_cons, List.not_mem_nil, or_false] at hq
      rcases hq with rfl | rfl | rfl <;> rfl)
    (.Planning "abc") (by rfl)

theorem sequentialSubmit_actions (oracle : Action → Bool) (calls : List Call) :
    ∀ a ∈ (sequentialSubmit oracle calls).1, ∃ c, a = Action.submit .sequential [c] := by
  induction calls with
  | nil => simp [sequentialSubmit]
  | cons c rest ih =>
    intro a ha
    by_cases hc : oracle (.submit .sequential [c]) = true
    · simp [sequentialSubmit, andThen, perform, hc] at ha
      rcases ha with ha | ha
      · exact ⟨c, ha⟩
      · exact ih a ha
    · simp [sequentialSubmit, andThen, perform, hc] at ha
      exact ⟨c, ha⟩

/-- C10: when the world status is `NewVersion`, `ensure_world` submits the
world-upgrade call through an atomic multicall: every submit it performs
is a multicall, its operations are declare-then-multicall-upgrade, and its
behaviour is independent of the profile configuration — whereas the other
phases (here sync-permissions) switch to sequential submission when
`disable_multicall` is set. -/
theorem c10_ensure_world_always_multicall (diff : WorldDiff) (cfg cfg2 : ProfileConfig)
    (oracle : Action → Bool) (h : diff.worldInfo.status = .NewVersion) :
    (∀ (mode : SubmitMode) (calls : List Call),
        Action.submit mode calls ∈ (ensureWorld diff cfg oracle).1 → mode = .multicall)
    ∧ (oracle (.declareClass diff.worldInfo.casmClassHash) = true →
        (ensureWorld diff cfg oracle).1
          = [.declareClass diff.worldInfo.casmClassHash,
             .submit .multicall [.upgradeWorld diff.worldInfo.classHash]])
    ∧ ensureWorld diff cfg oracle = ensureWorld diff cfg2 oracle
    ∧ (doMulticall cfg = false →
        ∀ (mode : SubmitMode) (calls : List Call),
          Action.submit mode calls ∈ (syncPermissions diff cfg oracle).1 → mode = .sequential) := by
  refine ⟨?_, ?_, ?_, ?_⟩
  · intro mode calls hmem
    by_cases hd : oracle (.declareClass diff.worldInfo.casmClassHash) = true <;>
      simp [ensureWorld, h, andThen, perform, hd] at hmem
    exact hmem.1
  · intro hd
    simp [ensureWorld, h, andThen, perform, hd]
  · simp [ensureWorld, h]
  · intro hdm mode calls hmem
    have hmode : cfgMode cfg = .sequential := by simp [cfgMode, hdm]
    have := sequentialSubmit_actions oracle (syncPermissionsCalls diff)
      (Action.submit mode calls)
      (by
        have hseq : syncPermissions diff cfg oracle
            = sequentialSubmit oracle (syncPermissionsCalls diff) := by
          simp [syncPermissions, invokerSubmit, hmode]
        rw [hseq] at hmem
        exact hmem)
    rcases this with ⟨c, hc⟩
    cases hc
    rfl

/-- Witness for C10: the concrete new-version diff, the default-multicall
and the disable-multicall configurations. -/
theorem c10_witness :
    (ensureWorld exDiff exSeqCfg (fun _ => true)).1
      = [.declareClass 8, .submit .multicall [.upgradeWorld 7]]
    ∧ ensureWorld exDiff exSeqCfg (fun _ => true)
        = ensureWorld exDiff exGoodCfg (fun _ => true) :=
  ⟨(c10_ensure_world_always_multicall exDiff exSeqCfg exGoodCfg (fun _ => true) rfl).2.1 rfl,
    (c10_ensure_world_always_multicall exDiff exSeqCfg exGoodCfg (fun _ => true) rfl).2.2.1⟩

/-- C9 counterexample: with a new world version and a contract whose
configured init argument is the non-numeric string "abc", the run ends
with the typed planning error, yet network submissions of earlier phases
(the world-upgrade multicall among them) have already been made — the
error is not surfaced before any network submission of the run. -/
theorem c9_counterexample :
    (migrate exDiff exBadCfg (fun _ => true)).2 = .error (.Planning "abc")
    ∧ Action.submit .multicall [.upgradeWorld 7]
        ∈ ((migrate exDiff exBadCfg (fun _ => true)).1.map Prod.snd).flatten := by
  constructor
  · rfl
  · have hflat : ((migrate exDiff exBadCfg (fun _ => true)).1.map Prod.snd).flatten
        = [.declareClass 8, .submit .multicall [.upgradeWorld 7],
           .declareClasses [2], .submit .multicall [.registerContract exSelector "ns" 1]] := by
      rfl
    rw [hflat]
    simp

/-- C9 amended: a malformed init-call argument produces a typed
`MigrationError` surfaced during the initialize-contracts phase before
that phase performs any network submission (the phase performs no
operation at all); earlier phases of the run may already have
submitted. -/
theorem c9_amended (diff : WorldDiff) (cfg : ProfileConfig) (oracle : Action → Bool)
    (e : MErr) (h : initContractsCalls diff cfg = .error e) :
    initContracts diff cfg oracle = ([], some e) := by
  simp [initContracts, h]

/-- Witness for C9 amended: the concrete bad configuration. -/
theorem c9_amended_witness :
    initContractsCalls exDiff exBadCfg = .error (.Planning "abc")
    ∧ initContracts exDiff exBadCfg (fun _ => true) = ([], some (.Planning "abc")) :=
  ⟨by rfl, c9_amended exDiff exBadCfg (fun _ => true) (.Planning "abc") (by rfl)⟩

theorem mem_syncPermCallsAux_writer (diff : WorldDiff) (s a : Felt) :
    ∀ l : List (Felt × ResourceDiff),
      (Call.grantWriter s a ∈ syncPermCallsAux diff l
        ↔ (∃ r, (s, r) ∈ l) ∧ a ∈ diff.getWritersOnlyLocal s) := by
  intro l
  induction l with
  | nil => simp [syncPermCallsAux]
  | cons p rest ih =>
    rcases p with ⟨s0, r0⟩
    constructor
    · intro hmem
      rcases List.mem_append.mp hmem with h1 | h2
      · rcases List.mem_append.mp h1 with hw | ho
        · rcases List.mem_map.mp hw with ⟨x, hx, hEq⟩
          injection hEq with hEq1 hEq2
          subst hEq1
          subst hEq2
          exact ⟨⟨r0, List.mem_cons_self _ _⟩, hx⟩
        · rcases List.mem_map.mp ho with ⟨x, hx, hEq⟩
          simp at hEq
      · have h3 := ih.mp h2
        rcases h3 with ⟨⟨r1, hr1⟩, ha⟩
        exact ⟨⟨r1, List.mem_cons_of_mem _ hr1⟩, ha⟩
    · rintro ⟨⟨r1, hr1⟩, ha⟩
      rcases List.mem_cons.mp hr1 with hEq | hmem
      · have hs : s = s0 := congrArg Prod.fst hEq
        subst hs
        exact List.mem_append.mpr (Or.inl (List.mem_append.mpr
          (Or.inl (List.mem_map.mpr ⟨a, ha, rfl⟩))))
      · exact List.mem_append.mpr (Or.inr (ih.mpr ⟨⟨r1, hmem⟩, ha⟩))

theorem mem_syncPermCallsAux_owner (diff : WorldDiff) (s a : Felt) :
    ∀ l : List (Felt × ResourceDiff),
      (Call.grantOwner s a ∈ syncPermCallsAux diff l
        ↔ (∃ r, (s, r) ∈ l) ∧ a ∈ diff.getOwnersOnlyLocal s) := by
  intro l
  induction l with
  | nil => simp [syncPermCallsAux]
  | cons p rest ih =>
    rcases p with ⟨s0, r0⟩
    constructor
    · intro hmem
      rcases List.mem_append.mp hmem with h1 | h2
      · rcases List.mem_append.mp h1 with hw | ho
        · rcases List.mem_map.mp hw with ⟨x, hx, hEq⟩
          simp at hEq
        · rcases List.mem_map.mp ho with ⟨x, hx, hEq⟩
          injection hEq with hEq1 hEq2
          subst hEq1
          subst hEq2
          exact ⟨⟨r0, List.mem_cons_self _ _⟩, hx⟩
      · have h3 := ih.mp h2
        rcases h3 with ⟨⟨r1, hr1⟩, ha⟩
        exact ⟨⟨r1, List.mem_cons_of_mem _ hr1⟩, ha⟩
    · rintro ⟨⟨r1, hr1⟩, ha⟩
      rcases List.mem_cons.mp hr1 with hEq | hmem
      · have hs : s = s0 := congrArg Prod.fst hEq
        subst hs
        exact List.mem_append.mpr (Or.inl (List.mem_append.mpr
          (Or.inr (List.mem_map.mpr ⟨a, ha, rfl⟩))))
      · exact List.mem_append.mpr (Or.inr (ih.mpr ⟨⟨r1, hmem⟩, ha⟩))

theorem grantWriter_injective (s : Felt) :
    Function.Injective (fun a => Call.grantWriter s a) := by
  intro x y h
  injection h

theorem grantOwner_injective (s : Felt) :
    Function.Injective (fun a => Call.grantOwner s a) := by
  intro x y h
  injection h

theorem count_grantWriter_map (s0 s a : Felt) (xs : List Felt) :
    (xs.map (fun x => Call.grantWriter s0 x)).count (Call.grantWriter s a)
      = if s0 = s then xs.count a else 0 := by
  by_cases hs : s0 = s
  · subst hs
    rw [if_pos rfl]
    exact List.count_map_of_injective xs _ (grantWriter_injective s0) a
  · rw [if_neg hs, List.count_eq_zero]
    intro hmem
    rcases List.mem_map.mp hmem with ⟨x, hx, hEq⟩
    injection hEq with hEq1 hEq2
    exact hs hEq1

theorem count_grantOwner_map (s0 s a : Felt) (xs : List Felt) :
    (xs.map (fun x => Call.grantOwner s0 x)).count (Call.grantOwner s a)
      = if s0 = s then xs.count a else 0 := by
  by_cases hs : s0 = s
  · subst hs
    rw [if_pos rfl]
    exact List.count_map_of_injective xs _ (grantOwner_injective s0) a
  · rw [if_neg hs, List.count_eq_zero]
    intro hmem
    rcases List.mem_map.mp hmem with ⟨x, hx, hEq⟩
    injection hEq with hEq1 hEq2
    exact hs hEq1

theorem count_grantWriter_in_ownerMap (s0 s a : Felt) (xs : List Felt) :
    (xs.map (fun x => Call.grantOwner s0 x)).count (Call.grantWriter s a) = 0 := by
  rw [List.count_eq_zero]
  intro hmem
  rcases List.mem_map.mp hmem with ⟨x, hx, hEq⟩
  simp at hEq

theorem count_grantOwner_in_writerMap (s0 s a : Felt) (xs : List Felt) :
    (xs.map (fun x => Call.grantWriter s0 x)).count (Call.grantOwner s a) = 0 := by
  rw [List.count_eq_zero]
  intro hmem
  rcases List.mem_map.mp hmem with ⟨x, hx, hEq⟩
  simp at hEq

theorem count_syncPermCallsAux_writer (diff : WorldDiff) (s a : Felt) :
    ∀ l : List (Felt × ResourceDiff), (l.map Prod.fst).Nodup → s ∈ l.map Prod.fst →
      (syncPermCallsAux diff l).count (Call.grantWriter s a)
        = (diff.getWritersOnlyLocal s).count a := by
  intro l
  induction l with
  | nil => intro _ hmem; simp at hmem
  | cons p rest ih =>
    rcases p with ⟨s0, r0⟩
    intro hnd hmem
    rw [List.map_cons] at hnd hmem
    have hnotin : s0 ∉ rest.map Prod.fst := (List.nodup_cons.mp hnd).1
    have hndrest : (rest.map Prod.fst).Nodup := (List.nodup_cons.mp hnd).2
    show ((_ ++ _) ++ syncPermCallsAux diff rest).count (Call.grantWriter s a) = _
    rw [List.count_append, List.count_append, count_grantWriter_map,
      count_grantWriter_in_ownerMap]
    rcases List.mem_cons.mp hmem with hs | hs
    · subst hs
      rw [if_pos rfl]
      have hz : (syncPermCallsAux diff rest).count (Call.grantWriter s a) = 0 := by
        rw [List.count_eq_zero]
        intro hm
        rcases (mem_syncPermCallsAux_writer diff s a rest).mp hm with ⟨⟨r1, hr1⟩, _⟩
        exact hnotin (List.mem_map.mpr ⟨(s, r1), hr1, rfl⟩)
      rw [hz]
      simp
    · have hss : s0 ≠ s := by
        intro hcon
        subst hcon
        exact hnotin hs
      rw [if_neg hss, ih hndrest hs]
      simp

theorem count_syncPermCallsAux_owner (diff : WorldDiff) (s a : Felt) :
    ∀ l : List (Felt × ResourceDiff), (l.map Prod.fst).Nodup → s ∈ l.map Prod.fst →
      (syncPermCallsAux diff l).count (Call.grantOwner s a)
        = (diff.getOwnersOnlyLocal s).count a := by
  intro l
  induction l with
  | nil => intro _ hmem; simp at hmem
  | cons p rest ih =>
    rcases p with ⟨s0, r0⟩
    intro hnd hmem
    rw [List.map_cons] at hnd hmem
    have hnotin : s0 ∉ rest.map Prod.fst := (List.nodup_cons.mp hnd).1
    have hndrest : (rest.map Prod.fst).Nodup := (List.nodup_cons.mp hnd).2
    show ((_ ++ _) ++ syncPermCallsAux diff rest).count (Call.grantOwner s a) = _
    rw [List.count_append, List.count_append, count_grantOwner_map,
      count_grantOwner_in_writerMap]
    rcases List.mem_cons.mp hmem with hs | hs
    · subst hs
      rw [if_pos rfl]
      have hz : (syncPermCallsAux diff rest).count (Call.grantOwner s a) = 0 := by
        rw [List.count_eq_zero]
        intro hm
        rcases (mem_syncPermCallsAux_owner diff s a rest).mp hm with ⟨⟨r1, hr1⟩, _⟩
        exact hnotin (List.mem_map.mpr ⟨(s, r1), hr1, rfl⟩)
      rw [hz]
      simp
    · have hss : s0 ≠ s := by
        intro hcon
        subst hcon
        exact hnotin hs
      rw [if_neg hss, ih hndrest hs]
      simp

theorem syncPermCallsAux_norevoke (diff : WorldDiff) :
    ∀ l : List (Felt × ResourceDiff), ∀ c ∈ syncPermCallsAux diff l,
      c.isRevocation = false := by
  intro l
  induction l with
  | nil => intro c hc; simp [syncPermCallsAux] at hc
  | cons p rest ih =>
    intro c hc
    rcases List.mem_append.mp hc with h1 | h2
    · rcases List.mem_append.mp h1 with hw | ho
      · rcases List.mem_map.mp hw with ⟨x, _, hEq⟩
        subst hEq
        rfl
      · rcases List.mem_map.mp ho with ⟨x, _, hEq⟩
        subst hEq
        rfl
    · exact ih c h2

/-- C7: `sync_permissions` queues only grant calls — a writer-grant call
for selector `s` and address `a` is queued iff `s` is a diff resource and
`a` is in its locally-only writer set (symmetrically for owner grants);
no queued call is a revocation; and, when the diff keys are distinct,
exactly one grant call is queued per locally-only address (call
multiplicity equals the address's multiplicity in the locally-only
set). -/
theorem c7_sync_permissions_additive (diff : WorldDiff) :
    (∀ s a : Felt, Call.grantWriter s a ∈ syncPermissionsCalls diff
        ↔ (∃ r, (s, r) ∈ diff.resources) ∧ a ∈ diff.getWritersOnlyLocal s)
    ∧ (∀ s a : Felt, Call.grantOwner s a ∈ syncPermissionsCalls diff
        ↔ (∃ r, (s, r) ∈ diff.resources) ∧ a ∈ diff.getOwnersOnlyLocal s)
    ∧ (∀ c ∈ syncPermissionsCalls diff, c.isRevocation = false)
    ∧ ((diff.resources.map Prod.fst).Nodup →
        ∀ s ∈ diff.resources.map Prod.fst, ∀ a : Felt,
          (syncPermissionsCalls diff).count (Call.grantWriter s a)
            = (diff.getWritersOnlyLocal s).count a
          ∧ (syncPermissionsCalls diff).count (Call.grantOwner s a)
            = (diff.getOwnersOnlyLocal s).count a) :=
  ⟨fun s a => mem_syncPermCallsAux_writer diff s a diff.resources,
    fun s a => mem_syncPermCallsAux_owner diff s a diff.resources,
    fun c hc => syncPermCallsAux_norevoke diff diff.resources c hc,
    fun hnd s hs a =>
      ⟨count_syncPermCallsAux_writer diff s a diff.resources hnd hs,
        count_syncPermCallsAux_owner diff s a diff.resources hnd hs⟩⟩

/-- Witness for C7: the concrete permission diff — one writer-grant for
address 1, one owner-grant each for addresses 2 and 3, and no queued
revocations for the remote-only addresses 4 and 5. -/
theorem c7_witness :
    (syncPermissionsCalls exPermDiff).count (Call.grantWriter 10 1)
        = (exPermDiff.getWritersOnlyLocal 10).count 1
    ∧ (syncPermissionsCalls exPermDiff).count (Call.grantOwner 10 2)
        = (exPermDiff.getOwnersOnlyLocal 10).count 2
    ∧ (Call.grantWriter 10 1 ∈ syncPermissionsCalls exPermDiff
        ↔ (∃ r, (10, r) ∈ exPermDiff.resources)
            ∧ 1 ∈ exPermDiff.getWritersOnlyLocal 10) :=
  ⟨((c7_sync_permissions_additive exPermDiff).2.2.2 (by decide) 10 (by decide) 1).1,
    ((c7_sync_permissions_additive exPermDiff).2.2.2 (by decide) 10 (by decide) 2).2,
    (c7_sync_permissions_additive exPermDiff).1 10 1⟩

theorem parseArgs_ok (l : List String) (h : ∀ arg ∈ l, (parseFelt arg).isSome) :
    parseArgs l = .ok (l.filterMap parseFelt) := by
  induction l with
  | nil => rfl
  | cons s rest ih =>
    rcases hv : parseFelt s with _ | v
    · exact absurd (h s (by simp)) (by simp [hv])
    · have ihr := ih (fun arg ha => h arg (by simp [ha]))
      simp [parseArgs, hv, List.filterMap_cons, ihr]

theorem initContractsCallsLoop_spec (argsMap : List (String × List String)) :
    ∀ l : List (Felt × ResourceDiff),
      (∀ s d, (s, d) ∈ l → specNeedsInit d = true →
        ∀ arg ∈ (lookupA argsMap d.tag).getD [], (parseFelt arg).isSome) →
      initContractsCallsLoop argsMap l
        = .ok (l.filterMap (fun p =>
            if specNeedsInit p.2 then
              some (.initContract p.1
                (((lookupA argsMap p.2.tag).getD []).filterMap parseFelt))
            else none)) := by
  intro l
  induction l with
  | nil => intro _; rfl
  | cons p rest ih =>
    rcases p with ⟨sel, d⟩
    intro hp
    have ihr := ih (fun s0 d0 hm => hp s0 d0 (List.mem_cons_of_mem _ hm))
    have hargs : specNeedsInit d = true →
        (match lookupA argsMap d.tag with
          | some args => parseArgs args
          | none => Except.ok []) =
        Except.ok (((lookupA argsMap d.tag).getD []).filterMap parseFelt) := by
      intro hneed
      rcases hl : lookupA argsMap d.tag with _ | args
      · rfl
      · have h2 := hp sel d (List.mem_cons_self _ _) hneed
        rw [hl] at h2
        exact parseArgs_ok args h2
    rcases d with ⟨lv⟩ | ⟨lv, rv⟩ | ⟨lv, rv⟩
    · rcases lv with nv | ⟨ns, c⟩ | ⟨ns, c⟩ | ⟨ns, c⟩
      · simp [initContractsCallsLoop, ResourceDiff.resourceType, ResourceDiff.localOf,
          specNeedsInit, List.filterMap_cons, ihr]
      · have h3 := hargs (by simp [specNeedsInit, ResourceDiff.resourceType, ResourceDiff.localOf])
        simp [initContractsCallsLoop, ResourceDiff.resourceType, ResourceDiff.localOf,
          specNeedsInit, List.filterMap_cons, ihr, h3]
      · simp [initContractsCallsLoop, ResourceDiff.resourceType, ResourceDiff.localOf,
          specNeedsInit, List.filterMap_cons, ihr]
      · simp [initContractsCallsLoop, ResourceDiff.resourceType, ResourceDiff.localOf,
          specNeedsInit, List.filterMap_cons, ihr]
    · rcases lv with nv | ⟨ns, c⟩ | ⟨ns, c⟩ | ⟨ns, c⟩ <;>
        [skip;
          rcases rv with nv2 | cr | mr | er;
          skip;
          skip] <;>
      first
        | (rcases hcr : cr.initialized with _ | _
           · have h3 := hargs (by
               simp [specNeedsInit, ResourceDiff.resourceType, ResourceDiff.localOf,
                 remoteInitFlag, hcr])
             simp [initContractsCallsLoop, ResourceDiff.resourceType, ResourceDiff.localOf,
               specNeedsInit, remoteInitFlag, hcr, List.filterMap_cons, ihr, h3]
           · simp [initContractsCallsLoop, ResourceDiff.resourceType, ResourceDiff.localOf,
               specNeedsInit, remoteInitFlag, hcr, List.filterMap_cons, ihr])
        | (simp [initContractsCallsLoop, ResourceDiff.resourceType, ResourceDiff.localOf,
            specNeedsInit, remoteInitFlag, List.filterMap_cons, ihr])
    · rcases lv with nv | ⟨ns, c⟩ | ⟨ns, c⟩ | ⟨ns, c⟩ <;>
        [skip;
          rcases rv with nv2 | cr | mr | er;
          skip;
          skip] <;>
      first
        | (rcases hcr : cr.initialized with _ | _
           · have h3 := hargs (by
               simp [specNeedsInit, ResourceDiff.resourceType, ResourceDiff.localOf,
                 remoteInitFlag, hcr])
             simp [initContractsCallsLoop, ResourceDiff.resourceType, ResourceDiff.localOf,
               specNeedsInit, remoteInitFlag, hcr, List.filterMap_cons, ihr, h3]
           · simp [initContractsCallsLoop, ResourceDiff.resourceType, ResourceDiff.localOf,
               specNeedsInit, remoteInitFlag, hcr, List.filterMap_cons, ihr])
        | (simp [initContractsCallsLoop, ResourceDiff.resourceType, ResourceDiff.localOf,
            specNeedsInit, remoteInitFlag, List.filterMap_cons, ihr])

/-- C8: when every configured init argument of a contract that must be
initialized parses, `initialize_contracts` queues an initialization call
exactly for the diff resources that are contracts and are either
`Created`, or `Updated`/`Synced` with the remote initialized flag false;
the call's arguments are the parsed configured felt literals, or the
empty list when none are configured; all other resources receive no
initialization call. -/
theorem c8_initialize_contracts_exact (diff : WorldDiff) (cfg : ProfileConfig)
    (hp : ∀ s d, (s, d) ∈ diff.resources → specNeedsInit d = true →
        ∀ arg ∈ (lookupA (cfg.initCallArgs.getD []) d.tag).getD [],
          (parseFelt arg).isSome) :
    initContractsCalls diff cfg
      = .ok (diff.resources.filterMap (fun p =>
          if specNeedsInit p.2 then
            some (.initContract p.1 (specInitArgs cfg p.2))
          else none)) := by
  have h := initContractsCallsLoop_spec (cfg.initCallArgs.getD []) diff.resources hp
  simpa [initContractsCalls, specInitArgs] using h

/-- Witness for C8: the concrete created contract with configured
arguments "5" and "0" — exactly one init call, on the contract's
selector, with the parsed arguments. -/
theorem c8_witness :
    initContractsCalls exDiff exGoodCfg
      = .ok (exDiff.resources.filterMap (fun p =>
          if specNeedsInit p.2 then
            some (.initContract p.1 (specInitArgs exGoodCfg p.2))
          else none))
    ∧ initContractsCalls exDiff exGoodCfg = .ok [.initContract exSelector [5, 0]] :=
  ⟨c8_initialize_contracts_exact exDiff exGoodCfg
    (by
      intro s d hm hneed arg harg
      simp only [exDiff, List.mem_cons, List.not_mem_nil, or_false] at hm
      obtain ⟨rfl, rfl⟩ := Prod.mk.injEq .. |>.mp hm
      have hl : (lookupA (exGoodCfg.initCallArgs.getD [])
          (ResourceDiff.Created exContract).tag).getD [] = ["5", "0"] := rfl
      rw [hl] at harg
      rcases List.mem_cons.mp harg with rfl | harg2
      · rfl
      · rcases List.mem_cons.mp harg2 with rfl | harg3
        · rfl
        · simp at harg3),
    by rfl⟩

end Migrate

namespace Executor

theorem processPairs_takeWhile (f : Nat → Nat) :
    ∀ l : List (RawResult × Tx),
      processPairs f l
        = (l.takeWhile (fun p => !p.1.isBlockFull)).map (fun p => specResult f p.1) := by
  intro l
  induction l with
  | nil => rfl
  | cons p rest ih =>
    rcases p with ⟨r, t⟩
    cases r <;>
      simp [processPairs, RawResult.isBlockFull, List.takeWhile_cons, specResult, ih]

theorem zip_map_fst {α β γ : Type} (g : α → γ) :
    ∀ (l1 : List α) (l2 : List β), l1.length ≤ l2.length →
      (l1.zip l2).map (fun p => g p.1) = l1.map g := by
  intro l1
  induction l1 with
  | nil => intro l2 _; rfl
  | cons x xs ih =>
    intro l2 hlen
    cases l2 with
    | nil => simp at hlen
    | cons y ys =>
      simp only [List.zip_cons_cons, List.map_cons]
      rw [ih ys (by simpa using hlen)]

theorem takeWhile_all {α : Type} (pred : α → Bool) :
    ∀ l : List α, (∀ p ∈ l, pred p = true) → l.takeWhile pred = l := by
  intro l
  induction l with
  | nil => intro _; rfl
  | cons x xs ih =>
    intro h
    rw [List.takeWhile_cons, if_pos (h x (by simp))]
    rw [ih (fun p hp => h p (by simp [hp]))]

/-- C4 counterexample: when the underlying executor signals `BlockFull`
for the (single) submitted transaction, the result loop breaks and the
recorded transactions list is empty — the submitted transaction is paired
with no result. -/
theorem c4_counterexample :
    (executeTransactions (fun g => g) [7] [RawResult.blockFull]).1.length
      ≠ ([7] : List Tx).length := by
  decide

/-- C4 amended: `execute_transactions` produces one per-operation result —
success with receipt (including the fee/gas resource accounting) or
failure with the error — for each submitted transaction up to, and
excluding, the first `BlockFull` signal of the underlying executor, and
the recorded list pairs exactly that prefix of the submitted transactions
with their results; when no `BlockFull` occurs, every submitted
transaction is paired with its result. -/
theorem c4_amended (f : Nat → Nat) (txs : List Tx) (raw : List RawResult)
    (hlen : raw.length = txs.length) :
    (executeTransactions f txs raw).1
      = txs.zip (((raw.zip txs).takeWhile (fun p => !p.1.isBlockFull)).map
          (fun p => specResult f p.1))
    ∧ (RawResult.blockFull ∉ raw →
        (executeTransactions f txs raw).1 = txs.zip (raw.map (specResult f))
        ∧ (executeTransactions f txs raw).1.length = txs.length) := by
  constructor
  · show txs.zip (processPairs f (raw.zip txs)) = _
    rw [processPairs_takeWhile]
  · intro hnb
    have hall : ∀ p ∈ raw.zip txs, (fun p : RawResult × Tx => !p.1.isBlockFull) p = true := by
      intro p hp
      have h1 : p.1 ∈ raw := by
        rcases p with ⟨r, t⟩
        exact (List.of_mem_zip hp).1
      rcases hq : p.1 with info | m | m | _
      · simp [hq, RawResult.isBlockFull]
      · simp [hq, RawResult.isBlockFull]
      · simp [hq, RawResult.isBlockFull]
      · rw [hq] at h1
        exact absurd h1 hnb
    have heq : (executeTransactions f txs raw).1 = txs.zip (raw.map (specResult f)) := by
      show txs.zip (processPairs f (raw.zip txs)) = _
      rw [processPairs_takeWhile, takeWhile_all _ _ hall,
        zip_map_fst (specResult f) raw txs (le_of_eq hlen)]
    refine ⟨heq, ?_⟩
    rw [heq, List.length_zip, List.length_map, hlen]
    exact Nat.min_self _

/-- Witness for C4 amended: two transactions, one success (zero receipt
fee recomputed from 5 gas) and one state error. -/
theorem c4_amended_witness :
    (executeTransactions (fun g => g) [1, 2]
        [RawResult.ok ⟨0, 5, 3, none⟩, RawResult.stateError "x"]).1
      = ([1, 2] : List Tx).zip
          (([RawResult.ok ⟨0, 5, 3, none⟩, RawResult.stateError "x"]).map
            (specResult (fun g => g)))
    ∧ (executeTransactions (fun g => g) [1, 2]
        [RawResult.ok ⟨0, 5, 3, none⟩, RawResult.stateError "x"]).1.length
      = ([1, 2] : List Tx).length :=
  ⟨((c4_amended (fun g => g) [1, 2] [RawResult.ok ⟨0, 5, 3, none⟩, RawResult.stateError "x"]
      (by decide)).2 (by decide)).1,
    ((c4_amended (fun g => g) [1, 2] [RawResult.ok ⟨0, 5, 3, none⟩, RawResult.stateError "x"]
      (by decide)).2 (by decide)).2⟩

end Executor

end Dojo
